import Mathlib

/-!
Verification of the opencode ask-user file-IPC protocol.

The repository consists of a Requester (the tool `execute` function: writes a
question file into a mailbox directory and polls for a response file) and a
Responder (`ask-user-cli.ts`: polls the mailbox for question files, presents
each to a human, collects a multi-line answer and writes a response file).

This file gives a shallow embedding of both sides.  The mailbox is a finite
association list of file names to file contents; one polling-loop iteration of
each side is a pure function over a snapshot of that state, and multi-tick
runs thread the state through a list of per-tick environments.
-/

namespace AskUser

/-- Request record (interface `Question` in ask_user.ts and ask-user-cli.ts). -/
structure Question where
  id : String
  question : String
  title : Option String
  sessionID : String
  messageID : String
  timestamp : Nat
deriving DecidableEq, Repr

/-- Reply record (interface `Response` in ask_user.ts and ask-user-cli.ts). -/
structure ResponseRec where
  id : String
  response : String
  responded : Bool
  timestamp : Nat
deriving DecidableEq, Repr

/-- Content of a file in the mailbox: a parsable question record, a parsable
response record, or unparsable bytes (for example a partially written JSON
file: `JSON.parse` throws on it). -/
inductive FileData where
  | question (q : Question)
  | response (r : ResponseRec)
  | corrupt
deriving DecidableEq, Repr

/-- The mailbox directory (`IPC_DIR`): whether the directory exists, and the
files it holds as an association list from file name to content. -/
structure Mailbox where
  dirExists : Bool
  files : List (String × FileData)
deriving DecidableEq, Repr

/-- `fs.existsSync` on a path inside the mailbox. -/
def existsSyncF (fs : Mailbox) (n : String) : Bool :=
  (fs.files.lookup n).isSome

/-- `fs.readFileSync` followed by content recovery: `none` when the file is
absent. -/
def readFileF (fs : Mailbox) (n : String) : Option FileData :=
  fs.files.lookup n

/-- `fs.writeFileSync`: creates the file or overwrites its previous content. -/
def writeF (fs : Mailbox) (n : String) (d : FileData) : Mailbox :=
  { fs with files := fs.files.filter (fun p => p.1 != n) ++ [(n, d)] }

/-- Removal of a file: the effect of a successful `fs.unlinkSync`. -/
def removeF (fs : Mailbox) (n : String) : Mailbox :=
  { fs with files := fs.files.filter (fun p => p.1 != n) }

/-- Errors raised by filesystem calls. -/
inductive IOErr where
  | enoent
  | eaccess
deriving DecidableEq, Repr

/-- `fs.unlinkSync`: raises ENOENT when the file is absent. -/
def unlinkSyncE (fs : Mailbox) (n : String) : Except IOErr Mailbox :=
  if existsSyncF fs n then .ok (removeF fs n) else .error .enoent

/-- The guarded deletion pattern used by the Requester cleanup code:
`if (fs.existsSync(f)) { fs.unlinkSync(f) }`. -/
def guardedUnlinkE (fs : Mailbox) (n : String) : Except IOErr Mailbox :=
  if existsSyncF fs n then unlinkSyncE fs n else .ok fs

/-- Pure form of the guarded deletion: within one snapshot it cannot fail. -/
def deleteIfExists (fs : Mailbox) (n : String) : Mailbox :=
  if existsSyncF fs n then removeF fs n else fs

/-- `ensureIpcDir`: `fs.mkdirSync(IPC_DIR, { recursive: true })` when absent. -/
def ensureIpcDir (fs : Mailbox) : Mailbox :=
  { fs with dirExists := true }

/-- `question_<id>.json`, the request-record file name. -/
def questionFileName (id : String) : String :=
  "question_" ++ id ++ ".json"

/-- `response_<id>.json`, the reply-record file name. -/
def responseFileName (id : String) : String :=
  "response_" ++ id ++ ".json"

/-- Recover a reply record from file content (`JSON.parse` as `Response`). -/
def parseResponse : FileData → Option ResponseRec
  | .response r => some r
  | _ => none

/-- Recover a request record from file content (`JSON.parse` as `Question`). -/
def parseQuestion : FileData → Option Question
  | .question q => some q
  | _ => none

/- ### Basic lookup lemmas for the mailbox operations -/

theorem lookup_filter_ne (n m : String) (h : m ≠ n)
    (l : List (String × FileData)) :
    (l.filter (fun p => p.1 != n)).lookup m = l.lookup m := by
  induction l with
  | nil => rfl
  | cons p t ih =>
    obtain ⟨a, b⟩ := p
    by_cases ha : a = n
    · subst ha
      have hm : (m == a) = false := by simp [h]
      simp [List.filter_cons, List.lookup, hm, ih]
    · have hne : (a != n) = true := by simp [ha]
      by_cases hma : m = a
      · subst hma
        simp [List.filter_cons, hne, List.lookup]
      · have hm : (m == a) = false := by simp [hma]
        simp [List.filter_cons, hne, List.lookup, hm, ih]

theorem lookup_filter_self_none (n : String) (l : List (String × FileData)) :
    (l.filter (fun p => p.1 != n)).lookup n = none := by
  induction l with
  | nil => rfl
  | cons p t ih =>
    obtain ⟨a, b⟩ := p
    by_cases ha : a = n
    · subst ha
      simp [List.filter_cons, ih]
    · have hne : (a != n) = true := by simp [ha]
      have hm : (n == a) = false := by simp [Ne.symm ha]
      simp [List.filter_cons, hne, List.lookup, hm, ih]

theorem lookup_append_none {α : Type} [BEq α] {l1 l2 : List (α × FileData)}
    {n : α} (h : l1.lookup n = none) :
    (l1 ++ l2).lookup n = l2.lookup n := by
  induction l1 with
  | nil => rfl
  | cons p t ih =>
    obtain ⟨a, b⟩ := p
    by_cases hb : (n == a) = true
    · simp [List.lookup, hb] at h
    · simp only [List.lookup, List.cons_append] at h ⊢
      rw [Bool.not_eq_true] at hb
      simp only [hb, cond_false] at h ⊢
      exact ih h

/-- Reading back the file just written gives the written content. -/
theorem readFileF_writeF_self (fs : Mailbox) (n : String) (d : FileData) :
    readFileF (writeF fs n d) n = some d := by
  unfold readFileF writeF
  simp only
  rw [lookup_append_none (lookup_filter_self_none n fs.files)]
  simp [List.lookup]

theorem lookup_append_some {α : Type} [BEq α] {l1 l2 : List (α × FileData)}
    {n : α} {v : FileData} (h : l1.lookup n = some v) :
    (l1 ++ l2).lookup n = some v := by
  induction l1 with
  | nil => simp [List.lookup] at h
  | cons p t ih =>
    obtain ⟨a, b⟩ := p
    by_cases hb : (n == a) = true
    · simp only [List.lookup, hb, cond_true] at h
      simp only [List.cons_append, List.lookup, hb, cond_true]
      exact h
    · rw [Bool.not_eq_true] at hb
      simp only [List.lookup, hb, cond_false] at h
      simp only [List.cons_append, List.lookup, hb, cond_false]
      exact ih h

/-- Writing one file leaves every other file unchanged. -/
theorem readFileF_writeF_other (fs : Mailbox) (n m : String) (d : FileData)
    (h : m ≠ n) :
    readFileF (writeF fs n d) m = readFileF fs m := by
  unfold readFileF writeF
  simp only
  cases hl : (fs.files.filter (fun p => p.1 != n)).lookup m with
  | none =>
    rw [lookup_append_none hl]
    have hm : (m == n) = false := by simp [h]
    simp [List.lookup, hm]
    rw [← lookup_filter_ne n m h fs.files, hl]
  | some v =>
    rw [lookup_append_some hl]
    rw [← lookup_filter_ne n m h fs.files, hl]

/-- Removing one file empties its slot and leaves every other file unchanged. -/
theorem readFileF_removeF (fs : Mailbox) (n m : String) :
    readFileF (removeF fs n) m = if m = n then none else readFileF fs m := by
  unfold readFileF removeF
  by_cases h : m = n
  · subst h
    simp [lookup_filter_self_none]
  · simp only [if_neg h]
    exact lookup_filter_ne n m h fs.files

/-- When a file is absent, filtering it away does nothing. -/
theorem filter_eq_self_of_lookup_none (n : String)
    (l : List (String × FileData)) (h : l.lookup n = none) :
    l.filter (fun p => p.1 != n) = l := by
  induction l with
  | nil => rfl
  | cons p t ih =>
    obtain ⟨a, b⟩ := p
    by_cases hb : (n == a) = true
    · simp [List.lookup, hb] at h
    · rw [Bool.not_eq_true] at hb
      simp only [List.lookup, hb, cond_false] at h
      have ha : (a != n) = true := by
        simp only [bne_iff_ne, ne_eq]
        intro heq
        subst heq
        simp at hb
      simp [List.filter_cons, ha, ih h]

/-- The guarded delete equals unconditional removal of the name. -/
theorem deleteIfExists_eq_removeF (fs : Mailbox) (n : String) :
    deleteIfExists fs n = removeF fs n := by
  unfold deleteIfExists
  by_cases h : existsSyncF fs n
  · simp [h]
  · simp only [h, if_false, Bool.false_eq_true]
    unfold removeF
    unfold existsSyncF at h
    have hnone : fs.files.lookup n = none := by
      cases hl : fs.files.lookup n with
      | none => rfl
      | some v => rw [hl] at h; simp at h
    rw [filter_eq_self_of_lookup_none n fs.files hnone]

/-- The request file and the reply file of one id never collide. -/
theorem questionFileName_ne_responseFileName (id : String) :
    questionFileName id ≠ responseFileName id := by
  intro h
  have h2 : (questionFileName id).data = (responseFileName id).data :=
    congrArg String.data h
  unfold questionFileName responseFileName at h2
  rw [String.data_append, String.data_append, String.data_append,
    String.data_append] at h2
  have hq : ("question_").data = 'q' :: ("uestion_").data := rfl
  have hr : ("response_").data = 'r' :: ("esponse_").data := rfl
  rw [hq, hr] at h2
  simp only [List.cons_append, List.cons.injEq] at h2
  exact absurd h2.1 (by decide)

/- ### The Requester: the polling loop of the execute function -/

/-- Tool-facing result object returned by execute (before JSON serialization).
The reason field is absent on the answered outcome. -/
structure ToolOutcome where
  responded : Bool
  response : String
  cancelled : Bool
  reason : Option String
deriving DecidableEq, Repr

/-- Outcome returned when context.abort.aborted is observed. -/
def abortOutcome : ToolOutcome :=
  { responded := false, response := "", cancelled := true,
    reason := some ("Agent aborted the request") }

/-- Outcome returned when the elapsed time exceeds the timeout. -/
def timeoutOutcome (timeoutSec : Nat) : ToolOutcome :=
  { responded := false, response := "", cancelled := true,
    reason := some ("Timeout after " ++ toString timeoutSec ++
      " seconds waiting for user response") }

/-- Outcome returned when the parsed reply has responded set to false. -/
def userCancelOutcome : ToolOutcome :=
  { responded := false, response := "", cancelled := true,
    reason := some ("User cancelled the request") }

/-- Outcome returned when the parsed reply has responded set to true. -/
def answeredOutcome (text : String) : ToolOutcome :=
  { responded := true, response := text, cancelled := false, reason := none }

/-- One iteration of the execute polling loop, over one snapshot of the
mailbox.  Checks, in source order: the abort signal, then the timeout
(elapsedMs is Date.now() minus startTime), then the reply file.  A reply file
that exists but fails to parse is left alone and the loop continues (second
component none).  On a successful parse the question file is deleted behind
an existsSync guard and the reply file is deleted unguarded (it is present in
this snapshot: it was just read). -/
def requesterTick (aborted : Bool) (elapsedMs timeoutMs timeoutSec : Nat)
    (id : String) (fs : Mailbox) : Mailbox × Option ToolOutcome :=
  let qf := questionFileName id
  let rf := responseFileName id
  if aborted then
    (deleteIfExists fs qf, some abortOutcome)
  else if timeoutMs < elapsedMs then
    (deleteIfExists fs qf, some (timeoutOutcome timeoutSec))
  else if existsSyncF fs rf then
    match (readFileF fs rf).bind parseResponse with
    | some r =>
      let fs1 := deleteIfExists fs qf
      let fs2 := removeF fs1 rf
      if r.responded then (fs2, some (answeredOutcome r.response))
      else (fs2, some userCancelOutcome)
    | none => (fs, none)
  else (fs, none)

/-- A multi-tick run of the execute loop.  Each list element is one polling
tick environment: the abort flag, the elapsed milliseconds and the mailbox
snapshot seen by that tick (the environment may change the mailbox between
ticks; on every tick that continues, the Requester itself leaves the mailbox
unchanged).  Returns none when the environment list is exhausted with the
loop still running. -/
def requesterRun (id : String) (timeoutMs timeoutSec : Nat) :
    List (Bool × Nat × Mailbox) → Option (Mailbox × ToolOutcome)
  | [] => none
  | e :: rest =>
    match requesterTick e.1 e.2.1 timeoutMs timeoutSec id e.2.2 with
    | (fs2, some out) => some (fs2, out)
    | (_, none) => requesterRun id timeoutMs timeoutSec rest

/-- The cleanup run on the unexpected-error path of execute: both records
deleted behind existsSync guards. -/
def errorCleanupE (fs : Mailbox) (id : String) : Except IOErr Mailbox := do
  let fs1 ← guardedUnlinkE fs (questionFileName id)
  guardedUnlinkE fs1 (responseFileName id)

/-- The cleanup run on the successful-parse path of execute: the question
file deleted behind an existsSync guard, then the reply file deleted with a
bare unlinkSync. -/
def successCleanupE (fs : Mailbox) (id : String) : Except IOErr Mailbox := do
  let fs1 ← guardedUnlinkE fs (questionFileName id)
  unlinkSyncE fs1 (responseFileName id)

/- ### Requester tick lemmas -/

/-- The guarded deletion never raises, whatever the state of the file. -/
theorem guardedUnlinkE_eq_ok (fs : Mailbox) (n : String) :
    guardedUnlinkE fs n = .ok (deleteIfExists fs n) := by
  unfold guardedUnlinkE unlinkSyncE deleteIfExists
  by_cases h : existsSyncF fs n
  · simp [h]
  · simp [h]

theorem requesterTick_abort (elapsedMs timeoutMs timeoutSec : Nat)
    (id : String) (fs : Mailbox) :
    requesterTick true elapsedMs timeoutMs timeoutSec id fs =
      (removeF fs (questionFileName id), some abortOutcome) := by
  simp [requesterTick, deleteIfExists_eq_removeF]

theorem requesterTick_timeout (elapsedMs timeoutMs timeoutSec : Nat)
    (id : String) (fs : Mailbox) (h : timeoutMs < elapsedMs) :
    requesterTick false elapsedMs timeoutMs timeoutSec id fs =
      (removeF fs (questionFileName id), some (timeoutOutcome timeoutSec)) := by
  simp [requesterTick, deleteIfExists_eq_removeF, h]

/-- When the tick is neither aborted nor timed out and the reply file is
absent or unparsable, the tick changes nothing and continues. -/
theorem requesterTick_notReady (elapsedMs timeoutMs timeoutSec : Nat)
    (id : String) (fs : Mailbox) (ht : ¬ timeoutMs < elapsedMs)
    (hp : (readFileF fs (responseFileName id)).bind parseResponse = none) :
    requesterTick false elapsedMs timeoutMs timeoutSec id fs = (fs, none) := by
  by_cases he : existsSyncF fs (responseFileName id)
  · simp [requesterTick, ht, hp, he]
  · simp [requesterTick, ht, he]

/-- When the tick is neither aborted nor timed out and the reply file parses,
the tick deletes both records and returns the outcome derived from the
responded flag of the reply. -/
theorem requesterTick_success (elapsedMs timeoutMs timeoutSec : Nat)
    (id : String) (fs : Mailbox) (r : ResponseRec)
    (ht : ¬ timeoutMs < elapsedMs)
    (hr : readFileF fs (responseFileName id) = some (.response r)) :
    requesterTick false elapsedMs timeoutMs timeoutSec id fs =
      (removeF (removeF fs (questionFileName id)) (responseFileName id),
        some (if r.responded then answeredOutcome r.response
          else userCancelOutcome)) := by
  unfold requesterTick
  have he : existsSyncF fs (responseFileName id) = true := by
    unfold existsSyncF
    unfold readFileF at hr
    rw [hr]
    rfl
  have hp : (readFileF fs (responseFileName id)).bind parseResponse = some r := by
    rw [hr]
    rfl
  by_cases hresp : r.responded
  · simp [requesterTick, ht, he, hp, deleteIfExists_eq_removeF, hresp]
  · simp [requesterTick, ht, he, hp, deleteIfExists_eq_removeF, hresp]

/- ### The Responder: ask-user-cli.ts -/

/-- Input collection of promptUser: the recursive prompt closure.  The state
mirrors the source: acc is the lines array (most recent first, mirroring
lines.push) and cnt is emptyLineCount.  An empty input line increments the
counter and submits when the counter is at least one and at least one line
has been collected; a non-empty line resets the counter and is pushed.
Returns the collected lines in entry order at submission, or none when the
input sequence runs out with the prompt still open (the session never
submits on these inputs). -/
def collectLines : List String → List String → Nat → Option (List String)
  | [], _, _ => none
  | line :: rest, acc, cnt =>
    if line == "" then
      if 1 ≤ cnt + 1 ∧ 0 < acc.length then some acc.reverse
      else collectLines rest acc (cnt + 1)
    else collectLines rest (line :: acc) 0

/-- Model of the JS String toLowerCase method: lower-case each character. -/
def toLowerStr (s : String) : String :=
  ⟨s.data.map Char.toLower⟩

/-- Model of the JS String trim method: strip leading and trailing
whitespace characters. -/
def trimStr (s : String) : String :=
  ⟨((s.data.dropWhile Char.isWhitespace).reverse.dropWhile
    Char.isWhitespace).reverse⟩

/-- Model of the JS Array join method with a newline separator. -/
def joinNl : List String → String
  | [] => ""
  | [s] => s
  | s :: rest => s ++ "\n" ++ joinNl rest

/-- Model of the JS String startsWith method. -/
def strStartsWith (s pre : String) : Bool :=
  List.isPrefixOf pre.data s.data

/-- Model of the JS String endsWith method. -/
def strEndsWith (s suf : String) : Bool :=
  List.isPrefixOf suf.data.reverse s.data.reverse

/-- lines.join of the source followed by trim. -/
def responseText (ls : List String) : String :=
  trimStr (joinNl ls)

/-- writeResponse: serialize a reply record to response_<id>.json. -/
def writeResponseF (fs : Mailbox) (questionId resp : String)
    (responded : Bool) (t : Nat) : Mailbox :=
  writeF fs (responseFileName questionId)
    (.response ⟨questionId, resp, responded, t⟩)

/-- promptUser: collect input lines for one question; on submission compare
the trimmed joined text case-insensitively against the cancel keyword and
write the reply record accordingly.  Returns none when the prompt never
submits (the promise never resolves and the Responder stays blocked). -/
def promptUserF (q : Question) (inputs : List String) (t : Nat)
    (fs : Mailbox) : Option Mailbox :=
  match collectLines inputs [] 0 with
  | none => none
  | some ls =>
    let resp := responseText ls
    if toLowerStr resp == "cancel" then
      some (writeResponseF fs q.id "" false t)
    else some (writeResponseF fs q.id resp true t)

/-- Request-file name test of getPendingQuestions:
startsWith question underscore and endsWith dot json. -/
def isQuestionFile (n : String) : Bool :=
  strStartsWith n "question_" && strEndsWith n ".json"

/-- The sorted request-file names of the mailbox listing (readdirSync then
filter then sort). -/
def pendingNames (fs : Mailbox) : List String :=
  ((fs.files.map Prod.fst).filter isQuestionFile).insertionSort (· ≤ ·)

/-- getPendingQuestions: list the mailbox, keep the names matching the
request pattern, sort them, then parse each file in order, skipping files
that fail to parse.  (Its leading ensureIpcDir call is applied by the
caller, which threads the mailbox state.) -/
def getPendingQuestions (fs : Mailbox) : List Question :=
  (pendingNames fs).filterMap (fun n => (readFileF fs n).bind parseQuestion)

/-- Observable interaction events of the Responder loop. -/
inductive REvent where
  | presented (id : String)
  | replied (id : String)
deriving DecidableEq, Repr

/-- The for-loop body of main over one discovered question list: a question
whose id is in processedQuestions is skipped; otherwise its id is added to
the set, the question is displayed, promptUser runs to completion and the
loop moves to the next question.  env gives the input lines the human types
for each question id; t is the reply timestamp.  Returns the final seen set,
the final mailbox, the event trace, and whether the loop is stuck inside a
prompt that never submits. -/
def serveLoop (env : String → List String) (t : Nat) :
    List Question → List String → Mailbox →
      List String × Mailbox × List REvent × Bool
  | [], seen, fs => (seen, fs, [], false)
  | q :: qs, seen, fs =>
    if q.id ∈ seen then serveLoop env t qs seen fs
    else
      match promptUserF q (env q.id) t fs with
      | none => (q.id :: seen, fs, [.presented q.id], true)
      | some fs2 =>
        let rest := serveLoop env t qs (q.id :: seen) fs2
        (rest.1, rest.2.1,
          .presented q.id :: .replied q.id :: rest.2.2.1, rest.2.2.2)

/-- Result of one iteration of the main while-true loop as seen by the
process: the iteration completed and the loop continues; or the Responder is
stuck inside a prompt; or an error escaped main, reached the main catch
handler, was logged, and process.exit(1) ran. -/
inductive StepOut where
  | loops (seen : List String) (fs : Mailbox) (evs : List REvent)
  | hangs (seen : List String) (fs : Mailbox) (evs : List REvent)
  | exits (code : Nat)
deriving DecidableEq, Repr

/-- One iteration of the Responder main loop.  listOk models whether the
readdirSync call inside getPendingQuestions succeeds; when it fails the
raised error is caught nowhere inside main, reaches the main catch handler,
is logged, and the process exits with code 1. -/
def responderMainStep (env : String → List String) (t : Nat) (listOk : Bool)
    (seen : List String) (fs : Mailbox) : StepOut :=
  let fs1 := ensureIpcDir fs
  if listOk then
    let r := serveLoop env t (getPendingQuestions fs1) seen fs1
    if r.2.2.2 then .hangs r.1 r.2.1 r.2.2.1
    else .loops r.1 r.2.1 r.2.2.1
  else .exits 1

/-- A multi-tick run of the Responder main loop, with listing succeeding on
every tick.  Each tick supplies the human input assignment for that tick and
an arbitrary update that the rest of the system (Requesters) applies to the
mailbox before the tick runs.  The run stops early when a prompt never
submits. -/
def responderRun (t : Nat) :
    List ((String → List String) × (Mailbox → Mailbox)) →
      List String → Mailbox → List String × Mailbox × List REvent
  | [], seen, fs => (seen, fs, [])
  | e :: rest, seen, fs =>
    let fs1 := ensureIpcDir (e.2 fs)
    let r := serveLoop e.1 t (getPendingQuestions fs1) seen fs1
    if r.2.2.2 then (r.1, r.2.1, r.2.2.1)
    else
      let r2 := responderRun t rest r.1 r.2.1
      (r2.1, r2.2.1, r.2.2.1 ++ r2.2.2)

/-- The question ids presented to the human, in trace order. -/
def presentedIds (evs : List REvent) : List String :=
  evs.filterMap (fun e =>
    match e with
    | .presented i => some i
    | .replied _ => none)

/-- A trace is a sequence of presented and replied pairs for the same id,
with at most one trailing presented event missing its reply (a hung prompt):
every reply is written before the next question is considered. -/
def wellFormedTrace : List REvent → Bool
  | [] => true
  | [REvent.presented _] => true
  | REvent.presented i :: REvent.replied j :: rest =>
    i == j && wellFormedTrace rest
  | _ => false

/- ### Input-collection lemmas -/

/-- Submission decomposition: a successful collection consumes the input up
to a terminating empty line, and the collected lines are the accumulated
lines followed by the non-empty lines of the consumed part. -/
theorem collectLines_decomp :
    ∀ (inputs acc : List String) (cnt : Nat) (ls : List String),
      collectLines inputs acc cnt = some ls →
      ∃ pre post, inputs = pre ++ "" :: post ∧
        ls = acc.reverse ++ pre.filter (fun l => l != "") := by
  intro inputs
  induction inputs with
  | nil =>
    intro acc cnt ls h
    simp [collectLines] at h
  | cons line rest ih =>
    intro acc cnt ls h
    rw [collectLines] at h
    by_cases hl : line = ""
    · subst hl
      rw [if_pos (by simp)] at h
      by_cases hacc : 0 < acc.length
      · rw [if_pos ⟨Nat.succ_le_succ (Nat.zero_le cnt), hacc⟩] at h
        injection h with h
        exact ⟨[], rest, rfl, by simp [← h]⟩
      · rw [if_neg (by simp [hacc])] at h
        obtain ⟨pre, post, hrest, hls⟩ := ih acc (cnt + 1) ls h
        refine ⟨"" :: pre, post, by rw [hrest]; rfl, ?_⟩
        simpa using hls
    · rw [if_neg (by simp [hl])] at h
      obtain ⟨pre, post, hrest, hls⟩ := ih (line :: acc) 0 ls h
      refine ⟨line :: pre, post, by rw [hrest]; rfl, ?_⟩
      have hbne : (line != "") = true := by simp [hl]
      simp only [List.filter_cons, hbne, if_true, hls, List.reverse_cons,
        List.append_assoc, List.cons_append, List.nil_append]

/-- One empty line submits once at least one non-empty line was collected:
the prompt consumes the leading non-empty lines and the terminating empty
line and returns the accumulated lines followed by the consumed ones. -/
theorem collectLines_terminates :
    ∀ (pre acc : List String) (cnt : Nat) (rest : List String),
      (∀ l ∈ pre, l ≠ "") → (acc ≠ [] ∨ pre ≠ []) →
      collectLines (pre ++ "" :: rest) acc cnt = some (acc.reverse ++ pre) := by
  intro pre
  induction pre with
  | nil =>
    intro acc cnt rest _ hne
    have hacc : acc ≠ [] := by
      cases hne with
      | inl h => exact h
      | inr h => exact absurd rfl h
    rw [List.nil_append, collectLines]
    rw [if_pos (by simp)]
    have hlen : 0 < acc.length := List.length_pos.mpr hacc
    rw [if_pos ⟨Nat.succ_le_succ (Nat.zero_le cnt), hlen⟩]
    simp
  | cons p t ih =>
    intro acc cnt rest hpre hne
    have hp : p ≠ "" := hpre p (List.mem_cons_self p t)
    rw [List.cons_append, collectLines]
    rw [if_neg (by simp [hp])]
    have := ih (p :: acc) 0 rest (fun l hl => hpre l (List.mem_cons_of_mem p hl))
      (Or.inl (by simp))
    rw [this]
    simp

/-- With no non-empty line entered, empty lines never submit: the prompt
consumes any number of empty lines and is still waiting. -/
theorem collectLines_allEmpty_none :
    ∀ (n cnt : Nat), collectLines (List.replicate n "") [] cnt = none := by
  intro n
  induction n with
  | zero => intro cnt; rfl
  | succ m ih =>
    intro cnt
    rw [List.replicate_succ, collectLines]
    rw [if_pos (by simp), if_neg (by simp)]
    exact ih (cnt + 1)

/- ### Responder loop lemmas -/

/-- Frame of one reply write: the directory flag is untouched, no file
disappears, every name other than the written reply file keeps its content,
and the reply file now holds the written record. -/
theorem writeResponseF_frame (fs : Mailbox) (qid resp : String) (b : Bool)
    (t : Nat) :
    (writeResponseF fs qid resp b t).dirExists = fs.dirExists ∧
    (∀ n, existsSyncF fs n = true →
      existsSyncF (writeResponseF fs qid resp b t) n = true) ∧
    (∀ n, n ≠ responseFileName qid →
      readFileF (writeResponseF fs qid resp b t) n = readFileF fs n) ∧
    readFileF (writeResponseF fs qid resp b t) (responseFileName qid) =
      some (.response ⟨qid, resp, b, t⟩) := by
  refine ⟨rfl, ?_, ?_, readFileF_writeF_self fs _ _⟩
  · intro n hn
    by_cases h : n = responseFileName qid
    · subst h
      unfold existsSyncF
      have := readFileF_writeF_self fs (responseFileName qid)
        (.response ⟨qid, resp, b, t⟩)
      unfold readFileF at this
      rw [show (writeResponseF fs qid resp b t) =
        writeF fs (responseFileName qid) (.response ⟨qid, resp, b, t⟩) from rfl]
      rw [this]
      rfl
    · unfold existsSyncF
      have := readFileF_writeF_other fs (responseFileName qid) n
        (.response ⟨qid, resp, b, t⟩) h
      unfold readFileF at this
      rw [show (writeResponseF fs qid resp b t) =
        writeF fs (responseFileName qid) (.response ⟨qid, resp, b, t⟩) from rfl]
      rw [this]
      exact hn
  · intro n hn
    exact readFileF_writeF_other fs (responseFileName qid) n _ hn

/-- A resolving promptUser call is exactly one writeResponse call. -/
theorem promptUserF_some_eq (q : Question) (inputs : List String) (t : Nat)
    (fs fs2 : Mailbox) (h : promptUserF q inputs t fs = some fs2) :
    ∃ resp b, fs2 = writeResponseF fs q.id resp b t := by
  unfold promptUserF at h
  cases hc : collectLines inputs [] 0 with
  | none => rw [hc] at h; exact absurd h (by simp)
  | some ls =>
    rw [hc] at h
    simp only at h
    by_cases hcan : toLowerStr (responseText ls) == "cancel"
    · rw [if_pos hcan] at h
      injection h with h
      exact ⟨"", false, h.symm⟩
    · rw [if_neg hcan] at h
      injection h with h
      exact ⟨responseText ls, true, h.symm⟩

/-- serveLoop dedup invariant: every presented id is new relative to the
incoming seen set, the presented ids are pairwise distinct, and the outgoing
seen set is the incoming one extended by exactly the presented ids. -/
theorem serveLoop_presented (env : String → List String) (t : Nat) :
    ∀ (qs : List Question) (seen : List String) (fs : Mailbox),
      (∀ i ∈ presentedIds (serveLoop env t qs seen fs).2.2.1, i ∉ seen) ∧
      (presentedIds (serveLoop env t qs seen fs).2.2.1).Nodup ∧
      (∀ i, i ∈ (serveLoop env t qs seen fs).1 ↔
        i ∈ seen ∨ i ∈ presentedIds (serveLoop env t qs seen fs).2.2.1) := by
  intro qs
  induction qs with
  | nil =>
    intro seen fs
    simp [serveLoop, presentedIds]
  | cons q qs ih =>
    intro seen fs
    rw [serveLoop]
    by_cases hq : q.id ∈ seen
    · rw [if_pos hq]
      exact ih seen fs
    · rw [if_neg hq]
      cases hp : promptUserF q (env q.id) t fs with
      | none =>
        refine ⟨?_, by simp [presentedIds], ?_⟩
        · intro i hi
          simp [presentedIds] at hi
          subst hi
          exact hq
        · intro i
          simp [presentedIds, List.mem_cons]
          tauto
      | some fs2 =>
        obtain ⟨h1, h2, h3⟩ := ih (q.id :: seen) fs2
        simp only [presentedIds, List.filterMap_cons] at h1 h2 h3 ⊢
        refine ⟨?_, ?_, ?_⟩
        · intro i hi
          simp only [List.mem_cons] at hi
          cases hi with
          | inl hie => subst hie; exact hq
          | inr hie =>
            intro hseen
            exact h1 i hie (List.mem_cons_of_mem _ hseen)
        · refine List.nodup_cons.mpr ⟨?_, h2⟩
          intro hmem
          exact h1 q.id hmem (List.mem_cons_self _ _)
        · intro i
          have := h3 i
          simp only [List.mem_cons] at this ⊢
          tauto

/-- serveLoop trace shape: presented and replied alternate per question,
each reply written before the next question is considered, with at most a
trailing presented event from a hung prompt. -/
theorem serveLoop_trace_wf (env : String → List String) (t : Nat) :
    ∀ (qs : List Question) (seen : List String) (fs : Mailbox),
      wellFormedTrace (serveLoop env t qs seen fs).2.2.1 = true := by
  intro qs
  induction qs with
  | nil => intro seen fs; rfl
  | cons q qs ih =>
    intro seen fs
    rw [serveLoop]
    by_cases hq : q.id ∈ seen
    · rw [if_pos hq]
      exact ih seen fs
    · rw [if_neg hq]
      cases hp : promptUserF q (env q.id) t fs with
      | none => rfl
      | some fs2 =>
        simp only
        rw [wellFormedTrace]
        simp [ih (q.id :: seen) fs2]

/-- serveLoop presentation order: the ids presented are a subsequence of the
discovered question list, hence presented in its order. -/
theorem serveLoop_order (env : String → List String) (t : Nat) :
    ∀ (qs : List Question) (seen : List String) (fs : Mailbox),
      List.Sublist (presentedIds (serveLoop env t qs seen fs).2.2.1)
        (qs.map Question.id) := by
  intro qs
  induction qs with
  | nil => intro seen fs; simp [serveLoop, presentedIds]
  | cons q qs ih =>
    intro seen fs
    rw [serveLoop]
    by_cases hq : q.id ∈ seen
    · rw [if_pos hq]
      exact (ih seen fs).cons q.id
    · rw [if_neg hq]
      cases hp : promptUserF q (env q.id) t fs with
      | none =>
        simp only [presentedIds, List.filterMap_cons, List.map_cons,
          List.filterMap_nil]
        exact (List.nil_sublist _).cons₂ q.id
      | some fs2 =>
        simp only [presentedIds, List.filterMap_cons, List.map_cons]
        exact (ih (q.id :: seen) fs2).cons₂ q.id

/-- serveLoop mailbox frame: the directory flag is untouched, no file is
ever deleted, and a name whose content changed is a reply file now holding a
reply record. -/
theorem serveLoop_frame (env : String → List String) (t : Nat) :
    ∀ (qs : List Question) (seen : List String) (fs : Mailbox),
      ((serveLoop env t qs seen fs).2.1.dirExists = fs.dirExists) ∧
      (∀ n, existsSyncF fs n = true →
        existsSyncF (serveLoop env t qs seen fs).2.1 n = true) ∧
      (∀ n, readFileF (serveLoop env t qs seen fs).2.1 n = readFileF fs n ∨
        ∃ id r, n = responseFileName id ∧
          readFileF (serveLoop env t qs seen fs).2.1 n =
            some (.response r)) := by
  intro qs
  induction qs with
  | nil =>
    intro seen fs
    exact ⟨rfl, fun n h => h, fun n => Or.inl rfl⟩
  | cons q qs ih =>
    intro seen fs
    rw [serveLoop]
    by_cases hq : q.id ∈ seen
    · rw [if_pos hq]
      exact ih seen fs
    · rw [if_neg hq]
      cases hp : promptUserF q (env q.id) t fs with
      | none => exact ⟨rfl, fun n h => h, fun n => Or.inl rfl⟩
      | some fs2 =>
        obtain ⟨resp, b, hfs2⟩ := promptUserF_some_eq q (env q.id) t fs fs2 hp
        obtain ⟨w1, w2, w3, w4⟩ := writeResponseF_frame fs q.id resp b t
        obtain ⟨i1, i2, i3⟩ := ih (q.id :: seen) fs2
        refine ⟨by rw [i1, hfs2, w1], ?_, ?_⟩
        · intro n hn
          exact i2 n (by rw [hfs2]; exact w2 n hn)
        · intro n
          cases i3 n with
          | inr h => exact Or.inr h
          | inl h =>
            by_cases hrn : n = responseFileName q.id
            · subst hrn
              refine Or.inr ⟨q.id, ⟨q.id, resp, b, t⟩, rfl, ?_⟩
              rw [h, hfs2]
              exact w4
            · refine Or.inl ?_
              rw [h, hfs2]
              exact w3 n hrn

/-- Across a whole multi-tick run of the Responder, every presented id is
new relative to the initial seen set, the presented ids are pairwise
distinct (each request is presented at most once per process lifetime), and
the final seen set is the initial one extended by exactly the presented
ids. -/
theorem responderRun_presented (t : Nat) :
    ∀ (ticks : List ((String → List String) × (Mailbox → Mailbox)))
      (seen : List String) (fs : Mailbox),
      (∀ i ∈ presentedIds (responderRun t ticks seen fs).2.2, i ∉ seen) ∧
      (presentedIds (responderRun t ticks seen fs).2.2).Nodup ∧
      (∀ i, i ∈ (responderRun t ticks seen fs).1 ↔
        i ∈ seen ∨ i ∈ presentedIds (responderRun t ticks seen fs).2.2) := by
  intro ticks
  induction ticks with
  | nil =>
    intro seen fs
    simp [responderRun, presentedIds]
  | cons e rest ih =>
    intro seen fs
    rw [responderRun]
    obtain ⟨s1, s2, s3⟩ := serveLoop_presented e.1 t
      (getPendingQuestions (ensureIpcDir (e.2 fs))) seen (ensureIpcDir (e.2 fs))
    set r := serveLoop e.1 t (getPendingQuestions (ensureIpcDir (e.2 fs)))
      seen (ensureIpcDir (e.2 fs)) with hr
    by_cases hh : r.2.2.2
    · rw [if_pos hh]
      exact ⟨s1, s2, s3⟩
    · rw [if_neg hh]
      obtain ⟨t1, t2, t3⟩ := ih r.1 r.2.1
      simp only [presentedIds, List.filterMap_append] at t1 t2 t3 ⊢
      refine ⟨?_, ?_, ?_⟩
      · intro i hi
        rw [List.mem_append] at hi
        cases hi with
        | inl h => exact s1 i h
        | inr h =>
          intro hseen
          exact t1 i h ((s3 i).mpr (Or.inl hseen))
      · refine List.nodup_append.mpr ⟨s2, t2, ?_⟩
        intro i hi hj
        exact t1 i hj ((s3 i).mpr (Or.inr hi))
      · intro i
        rw [List.mem_append]
        constructor
        · intro h
          cases (t3 i).mp h with
          | inr h2 => exact Or.inr (Or.inr h2)
          | inl h2 =>
            cases (s3 i).mp h2 with
            | inl h3 => exact Or.inl h3
            | inr h3 => exact Or.inr (Or.inl h3)
        · intro h
          cases h with
          | inl h2 => exact (t3 i).mpr (Or.inl ((s3 i).mpr (Or.inl h2)))
          | inr h2 =>
            cases h2 with
            | inl h3 => exact (t3 i).mpr (Or.inl ((s3 i).mpr (Or.inr h3)))
            | inr h3 => exact (t3 i).mpr (Or.inr h3)

/-- Mailbox frame across a whole run in which the rest of the system leaves
the mailbox alone (every per-tick external update is the identity): no file
is ever deleted and a name whose content changed is a reply file now holding
a reply record. -/
theorem responderRun_frame (t : Nat) :
    ∀ (ticks : List ((String → List String) × (Mailbox → Mailbox)))
      (seen : List String) (fs : Mailbox),
      (∀ e ∈ ticks, ∀ m, e.2 m = m) →
      (∀ n, existsSyncF fs n = true →
        existsSyncF (responderRun t ticks seen fs).2.1 n = true) ∧
      (∀ n, readFileF (responderRun t ticks seen fs).2.1 n = readFileF fs n ∨
        ∃ id r, n = responseFileName id ∧
          readFileF (responderRun t ticks seen fs).2.1 n =
            some (.response r)) := by
  intro ticks
  induction ticks with
  | nil =>
    intro seen fs _
    exact ⟨fun n h => h, fun n => Or.inl rfl⟩
  | cons e rest ih =>
    intro seen fs hid
    rw [responderRun]
    have he : e.2 fs = fs := hid e (List.mem_cons_self _ _) fs
    have hdir : ∀ n, existsSyncF (ensureIpcDir (e.2 fs)) n = existsSyncF fs n := by
      intro n
      rw [he]
      rfl
    have hdir2 : ∀ n, readFileF (ensureIpcDir (e.2 fs)) n = readFileF fs n := by
      intro n
      rw [he]
      rfl
    obtain ⟨f1, f2⟩ := serveLoop_frame e.1 t
      (getPendingQuestions (ensureIpcDir (e.2 fs))) seen (ensureIpcDir (e.2 fs))
    set r := serveLoop e.1 t (getPendingQuestions (ensureIpcDir (e.2 fs)))
      seen (ensureIpcDir (e.2 fs)) with hr
    obtain ⟨g1, g2⟩ := f2
    by_cases hh : r.2.2.2
    · rw [if_pos hh]
      refine ⟨?_, ?_⟩
      · intro n hn
        exact g1 n ((hdir n).trans hn)
      · intro n
        cases g2 n with
        | inl h => exact Or.inl (h.trans (hdir2 n))
        | inr h => exact Or.inr h
    · rw [if_neg hh]
      obtain ⟨i1, i2⟩ := ih r.1 r.2.1
        (fun e2 he2 => hid e2 (List.mem_cons_of_mem _ he2))
      refine ⟨?_, ?_⟩
      · intro n hn
        refine i1 n (g1 n ?_)
        rw [hdir n]
        exact hn
      · intro n
        cases i2 n with
        | inr h => exact Or.inr h
        | inl h =>
          cases g2 n with
          | inl h2 => exact Or.inl (h.trans (h2.trans (hdir2 n)))
          | inr h2 => exact Or.inr ⟨h2.choose, h2.choose_spec.choose,
              h2.choose_spec.choose_spec.1,
              h.trans h2.choose_spec.choose_spec.2⟩

/-- Every question yielded by getPendingQuestions comes from a file whose
content parsed: files that fail to parse are skipped. -/
theorem getPendingQuestions_parses (fs : Mailbox) (q : Question)
    (h : q ∈ getPendingQuestions fs) :
    ∃ n, readFileF fs n = some (.question q) := by
  unfold getPendingQuestions at h
  rw [List.mem_filterMap] at h
  obtain ⟨n, _, hn⟩ := h
  refine ⟨n, ?_⟩
  cases hread : readFileF fs n with
  | none => rw [hread] at hn; simp at hn
  | some d =>
    rw [hread] at hn
    cases d with
    | question q2 =>
      simp [parseQuestion] at hn
      rw [hn]
    | response r => simp [parseQuestion] at hn
    | corrupt => simp [parseQuestion] at hn

/-- When the directory listing succeeds, one Responder loop iteration never
reaches the process-exit handler. -/
theorem responderMainStep_listOk_no_exit (env : String → List String)
    (t : Nat) (seen : List String) (fs : Mailbox) (c : Nat) :
    responderMainStep env t true seen fs ≠ .exits c := by
  unfold responderMainStep
  simp only [if_true]
  by_cases hh : (serveLoop env t (getPendingQuestions (ensureIpcDir fs)) seen
      (ensureIpcDir fs)).2.2.2
  · simp [hh]
  · simp [hh]

/-- Non-returning polling ticks are skipped by the run without touching the
mailbox: a prefix of ticks that are unaborted, within the deadline and
without a parsable reply contributes nothing. -/
theorem requesterRun_skip (id : String) (timeoutMs timeoutSec : Nat) :
    ∀ (pre rest : List (Bool × Nat × Mailbox)),
      (∀ e ∈ pre, e.1 = false ∧ ¬ timeoutMs < e.2.1 ∧
        (readFileF e.2.2 (responseFileName id)).bind parseResponse = none) →
      requesterRun id timeoutMs timeoutSec (pre ++ rest) =
        requesterRun id timeoutMs timeoutSec rest := by
  intro pre
  induction pre with
  | nil => intro rest _; rfl
  | cons e pre2 ih =>
    intro rest hpre
    obtain ⟨hab, hto, hrp⟩ := hpre e (List.mem_cons_self _ _)
    rw [List.cons_append, requesterRun]
    rw [hab, requesterTick_notReady e.2.1 timeoutMs timeoutSec id e.2.2 hto hrp]
    exact ih rest (fun e2 he2 => hpre e2 (List.mem_cons_of_mem _ he2))

/-- On every returned outcome of the polling loop, the reason field is
present exactly when the cancelled flag is set. -/
theorem requesterTick_reason_iff_cancelled (aborted : Bool)
    (elapsedMs timeoutMs timeoutSec : Nat) (id : String) (fs : Mailbox)
    (out : ToolOutcome)
    (h : (requesterTick aborted elapsedMs timeoutMs timeoutSec id fs).2 =
      some out) :
    out.reason.isSome = out.cancelled := by
  cases aborted with
  | true =>
    rw [requesterTick_abort] at h
    injection h with h
    rw [← h]
    rfl
  | false =>
    by_cases ht : timeoutMs < elapsedMs
    · rw [requesterTick_timeout elapsedMs timeoutMs timeoutSec id fs ht] at h
      injection h with h
      rw [← h]
      rfl
    · cases hrd : readFileF fs (responseFileName id) with
      | none =>
        rw [requesterTick_notReady elapsedMs timeoutMs timeoutSec id fs ht
          (by rw [hrd]; rfl)] at h
        simp at h
      | some d =>
        cases d with
        | question q2 =>
          rw [requesterTick_notReady elapsedMs timeoutMs timeoutSec id fs ht
            (by rw [hrd]; rfl)] at h
          simp at h
        | corrupt =>
          rw [requesterTick_notReady elapsedMs timeoutMs timeoutSec id fs ht
            (by rw [hrd]; rfl)] at h
          simp at h
        | response r =>
          rw [requesterTick_success elapsedMs timeoutMs timeoutSec id fs r ht
            hrd] at h
          injection h with h
          rw [← h]
          by_cases hresp : r.responded
          · simp [hresp, answeredOutcome]
          · simp [hresp, userCancelOutcome]

/- ### Claim theorems -/

/-- C1: For every answered request — the Responder collects input that
submits with text other than the cancel keyword, hence writes a reply
record with answered (responded) true — the response text returned by the
Requester equals exactly the text the Responder collected: the entered
non-empty lines joined with newlines and then whitespace-trimmed. -/
theorem C1_round_trip (q : Question) (inputs ls : List String) (t : Nat)
    (fs : Mailbox) (elapsedMs timeoutMs timeoutSec : Nat)
    (hc : collectLines inputs [] 0 = some ls)
    (hnc : toLowerStr (responseText ls) ≠ "cancel")
    (ht : ¬ timeoutMs < elapsedMs) :
    promptUserF q inputs t fs =
      some (writeResponseF fs q.id (responseText ls) true t) ∧
    (requesterTick false elapsedMs timeoutMs timeoutSec q.id
        (writeResponseF fs q.id (responseText ls) true t)).2 =
      some (answeredOutcome (responseText ls)) ∧
    ∃ pre post, inputs = pre ++ "" :: post ∧
      ls = pre.filter (fun l => l != "") := by
  refine ⟨?_, ?_, ?_⟩
  · unfold promptUserF
    rw [hc]
    simp only
    rw [if_neg (by simp [hnc])]
  · have hw := (writeResponseF_frame fs q.id (responseText ls) true t).2.2.2
    rw [requesterTick_success elapsedMs timeoutMs timeoutSec q.id
      (writeResponseF fs q.id (responseText ls) true t)
      ⟨q.id, responseText ls, true, t⟩ ht hw]
    rfl
  · obtain ⟨pre, post, hin, hls⟩ := collectLines_decomp inputs [] 0 ls hc
    exact ⟨pre, post, hin, by simpa using hls⟩

/-- C2: on every polling tick cancellation is checked before timeout and
before the reply file; if the abort signal has fired before any tick has
observed a parsable reply, the run returns the aborted outcome, deletes
only the question file of the aborting tick snapshot, and never consumes a
reply record — the reply file of that snapshot, if present, is left exactly
as it was. -/
theorem C2_abort_priority (id : String) (timeoutMs timeoutSec : Nat)
    (pre : List (Bool × Nat × Mailbox)) (el : Nat) (fsk : Mailbox)
    (post : List (Bool × Nat × Mailbox))
    (hpre : ∀ e ∈ pre, e.1 = false ∧ ¬ timeoutMs < e.2.1 ∧
      (readFileF e.2.2 (responseFileName id)).bind parseResponse = none) :
    requesterRun id timeoutMs timeoutSec (pre ++ (true, el, fsk) :: post) =
      some (removeF fsk (questionFileName id), abortOutcome) ∧
    readFileF (removeF fsk (questionFileName id)) (responseFileName id) =
      readFileF fsk (responseFileName id) ∧
    (∀ (fs2 : Mailbox) (el2 : Nat),
      requesterTick true el2 timeoutMs timeoutSec id fs2 =
        (removeF fs2 (questionFileName id), some abortOutcome)) := by
  refine ⟨?_, ?_, fun fs2 el2 => requesterTick_abort el2 timeoutMs timeoutSec id fs2⟩
  · rw [requesterRun_skip id timeoutMs timeoutSec pre _ hpre]
    rw [requesterRun, requesterTick_abort]
  · rw [readFileF_removeF]
    rw [if_neg (fun h => questionFileName_ne_responseFileName id h.symm)]

/-- C3 counterexample: entering two consecutive empty lines with no prior
non-empty line does not end the collection — the prompt is still waiting
after both. -/
theorem C3_counterexample : collectLines ["", ""] [] 0 = none := by rfl

/-- C3 (amended): one empty line after at least one non-empty line
terminates input; but with no non-empty line collected, empty lines never
terminate — in particular two consecutive empty lines with no prior
non-empty line do not end the collection, and any number of empty lines
alone leaves the prompt waiting. -/
theorem C3_amended_termination :
    (∀ (pre rest : List String), pre ≠ [] → (∀ l ∈ pre, l ≠ "") →
      collectLines (pre ++ "" :: rest) [] 0 = some pre) ∧
    (∀ (n cnt : Nat), collectLines (List.replicate n "") [] cnt = none) := by
  constructor
  · intro pre rest hne hpre
    have := collectLines_terminates pre [] 0 rest hpre (Or.inr hne)
    simpa using this
  · exact collectLines_allEmpty_none

/-- C3 witness: a non-empty line followed by one empty line submits, while
two empty lines alone do not. -/
theorem C3_amended_termination_witness :
    collectLines (["hi"] ++ "" :: []) [] 0 = some ["hi"] ∧
    collectLines (List.replicate 2 "") [] 0 = none :=
  ⟨C3_amended_termination.1 ["hi"] [] (by decide) (by decide),
    C3_amended_termination.2 2 0⟩

/-- C4: when the collected text equals the cancel token in any letter case
(lower-cased it is the word cancel), the Responder writes a reply with
responded false and empty text, and the Requester consuming that reply
returns responded false, empty response, cancelled true, with the
user-cancelled reason; moreover on every outcome the reason field is
present exactly when cancelled is true. -/
theorem C4_cancel_keyword (q : Question) (inputs ls : List String) (t : Nat)
    (fs : Mailbox) (elapsedMs timeoutMs timeoutSec : Nat)
    (hc : collectLines inputs [] 0 = some ls)
    (hcan : toLowerStr (responseText ls) = "cancel")
    (ht : ¬ timeoutMs < elapsedMs) :
    promptUserF q inputs t fs = some (writeResponseF fs q.id "" false t) ∧
    (requesterTick false elapsedMs timeoutMs timeoutSec q.id
        (writeResponseF fs q.id "" false t)).2 = some userCancelOutcome ∧
    userCancelOutcome =
      ⟨false, "", true, some ("User cancelled the request")⟩ ∧
    (∀ (ab : Bool) (el2 : Nat) (fs2 : Mailbox) (out : ToolOutcome),
      (requesterTick ab el2 timeoutMs timeoutSec q.id fs2).2 = some out →
      out.reason.isSome = out.cancelled) := by
  refine ⟨?_, ?_, rfl,
    fun ab el2 fs2 out h =>
      requesterTick_reason_iff_cancelled ab el2 timeoutMs timeoutSec q.id
        fs2 out h⟩
  · unfold promptUserF
    rw [hc]
    simp only
    rw [if_pos (by simp [hcan])]
  · have hw := (writeResponseF_frame fs q.id "" false t).2.2.2
    rw [requesterTick_success elapsedMs timeoutMs timeoutSec q.id
      (writeResponseF fs q.id "" false t) ⟨q.id, "", false, t⟩ ht hw]
    rfl

/-- C5: within one snapshot, no deletion the Requester performs during
cleanup errors when the target is absent: the guarded deletions used on the
timeout, cancellation and error paths skip an absent file and never raise,
and the success-path pair (guarded question delete, then bare reply delete)
succeeds whenever the reply file was present in the snapshot it was just
read from. -/
theorem C5_idempotent_cleanup (fs : Mailbox) (n : String) (id : String) :
    (existsSyncF fs n = false → guardedUnlinkE fs n = .ok fs) ∧
    (guardedUnlinkE fs n).isOk = true ∧
    (errorCleanupE fs id).isOk = true ∧
    (existsSyncF fs (responseFileName id) = true →
      (successCleanupE fs id).isOk = true) := by
  refine ⟨?_, ?_, ?_, ?_⟩
  · intro h
    unfold guardedUnlinkE
    rw [if_neg (by simp [h])]
  · rw [guardedUnlinkE_eq_ok]
    rfl
  · unfold errorCleanupE
    rw [guardedUnlinkE_eq_ok]
    show (guardedUnlinkE (deleteIfExists fs (questionFileName id))
      (responseFileName id)).isOk = true
    rw [guardedUnlinkE_eq_ok]
    rfl
  · intro h
    unfold successCleanupE
    rw [guardedUnlinkE_eq_ok]
    show (unlinkSyncE (deleteIfExists fs (questionFileName id))
      (responseFileName id)).isOk = true
    rw [deleteIfExists_eq_removeF]
    have hre : existsSyncF (removeF fs (questionFileName id))
        (responseFileName id) = true := by
      unfold existsSyncF
      have := readFileF_removeF fs (questionFileName id) (responseFileName id)
      unfold readFileF at this
      rw [this, if_neg (fun h2 =>
        questionFileName_ne_responseFileName id h2.symm)]
      exact h
    unfold unlinkSyncE
    rw [if_pos hre]
    rfl

/-- C5 witness: cleanup on a mailbox where the question file is already
absent raises no error, on any path. -/
theorem C5_idempotent_cleanup_witness :
    (guardedUnlinkE ⟨true, [("response_x.json",
        FileData.response ⟨"x", "ok", true, 0⟩)]⟩ "question_x.json" =
      .ok ⟨true, [("response_x.json",
        FileData.response ⟨"x", "ok", true, 0⟩)]⟩) ∧
    (errorCleanupE ⟨true, [("response_x.json",
        FileData.response ⟨"x", "ok", true, 0⟩)]⟩ "x").isOk = true ∧
    (successCleanupE ⟨true, [("response_x.json",
        FileData.response ⟨"x", "ok", true, 0⟩)]⟩ "x").isOk = true :=
  ⟨(C5_idempotent_cleanup ⟨true, [("response_x.json",
        FileData.response ⟨"x", "ok", true, 0⟩)]⟩ "question_x.json" "x").1
      (by decide),
    (C5_idempotent_cleanup ⟨true, [("response_x.json",
        FileData.response ⟨"x", "ok", true, 0⟩)]⟩ "question_x.json" "x").2.2.1,
    (C5_idempotent_cleanup ⟨true, [("response_x.json",
        FileData.response ⟨"x", "ok", true, 0⟩)]⟩ "question_x.json" "x").2.2.2
      (by decide)⟩

/-- C1 witness: the round trip at the spec example input: the human types
one line and one empty line. -/
theorem C1_round_trip_witness :
    promptUserF ⟨"q1", "pick", none, "s", "m", 0⟩ ["Use option B", ""] 0
        ⟨true, []⟩ =
      some (writeResponseF ⟨true, []⟩ "q1" (responseText ["Use option B"])
        true 0) ∧
    (requesterTick false 0 300000 300 "q1"
        (writeResponseF ⟨true, []⟩ "q1" (responseText ["Use option B"])
          true 0)).2 =
      some (answeredOutcome (responseText ["Use option B"])) ∧
    ∃ pre post, (["Use option B", ""] : List String) = pre ++ "" :: post ∧
      (["Use option B"] : List String) = pre.filter (fun l => l != "") :=
  C1_round_trip ⟨"q1", "pick", none, "s", "m", 0⟩ ["Use option B", ""]
    ["Use option B"] 0 ⟨true, []⟩ 0 300000 300 (by decide) (by decide)
    (by decide)

/-- C2 witness: one quiet tick, then a tick whose snapshot holds a fresh
reply while the abort signal has fired: the run aborts and the reply file
survives untouched. -/
theorem C2_abort_priority_witness :
    requesterRun "x" 1000 1
        ([(false, 0, ⟨true, []⟩)] ++
          (true, 7, ⟨true, [("response_x.json",
            FileData.response ⟨"x", "hello", true, 5⟩)]⟩) :: []) =
      some (removeF ⟨true, [("response_x.json",
          FileData.response ⟨"x", "hello", true, 5⟩)]⟩
        (questionFileName "x"), abortOutcome) ∧
    readFileF (removeF ⟨true, [("response_x.json",
          FileData.response ⟨"x", "hello", true, 5⟩)]⟩
        (questionFileName "x")) (responseFileName "x") =
      readFileF ⟨true, [("response_x.json",
          FileData.response ⟨"x", "hello", true, 5⟩)]⟩
        (responseFileName "x") := by
  have h := C2_abort_priority "x" 1000 1 [(false, 0, ⟨true, []⟩)] 7
    ⟨true, [("response_x.json", FileData.response ⟨"x", "hello", true, 5⟩)]⟩
    [] (by decide)
  exact ⟨h.1, h.2.1⟩

/-- C4 witness: the cancel keyword typed in upper case round-trips to the
user-cancelled outcome. -/
theorem C4_cancel_keyword_witness :
    promptUserF ⟨"q1", "w", none, "s", "m", 0⟩ ["CANCEL", ""] 0 ⟨true, []⟩ =
      some (writeResponseF ⟨true, []⟩ "q1" "" false 0) ∧
    (requesterTick false 0 1000 1 "q1"
        (writeResponseF ⟨true, []⟩ "q1" "" false 0)).2 =
      some userCancelOutcome := by
  have h := C4_cancel_keyword ⟨"q1", "w", none, "s", "m", 0⟩ ["CANCEL", ""]
    ["CANCEL"] 0 ⟨true, []⟩ 0 1000 1 (by decide) (by decide) (by decide)
  exact ⟨h.1, h.2.1⟩

/-- C6: the Responder never deletes any file from the mailbox: across one
loop iteration over any question list, and across a whole multi-tick run in
which the rest of the system is idle, every file present stays present, any
name whose content changed is a reply file holding a reply record, and the
only directory mutation is creating it. -/
theorem C6_responder_never_deletes (env : String → List String) (t : Nat)
    (qs : List Question) (seen : List String) (fs : Mailbox)
    (ticks : List ((String → List String) × (Mailbox → Mailbox)))
    (hid : ∀ e ∈ ticks, ∀ m, e.2 m = m) :
    (∀ n, existsSyncF fs n = true →
      existsSyncF (serveLoop env t qs seen fs).2.1 n = true) ∧
    (∀ n, readFileF (serveLoop env t qs seen fs).2.1 n = readFileF fs n ∨
      ∃ id r, n = responseFileName id ∧
        readFileF (serveLoop env t qs seen fs).2.1 n = some (.response r)) ∧
    (serveLoop env t qs seen fs).2.1.dirExists = fs.dirExists ∧
    (ensureIpcDir fs).dirExists = true ∧
    (ensureIpcDir fs).files = fs.files ∧
    (∀ n, existsSyncF fs n = true →
      existsSyncF (responderRun t ticks seen fs).2.1 n = true) ∧
    (∀ n, readFileF (responderRun t ticks seen fs).2.1 n = readFileF fs n ∨
      ∃ id r, n = responseFileName id ∧
        readFileF (responderRun t ticks seen fs).2.1 n =
          some (.response r)) := by
  obtain ⟨a1, a2, a3⟩ := serveLoop_frame env t qs seen fs
  obtain ⟨b1, b2⟩ := responderRun_frame t ticks seen fs hid
  exact ⟨a2, a3, a1, rfl, rfl, b1, b2⟩

/-- C6 witness: after serving one question, its request file is still in
the mailbox. -/
theorem C6_responder_never_deletes_witness :
    existsSyncF (serveLoop (fun _ => ["ok", ""]) 0
        [⟨"a", "what", none, "s", "m", 0⟩] []
        ⟨true, [("question_a.json",
          FileData.question ⟨"a", "what", none, "s", "m", 0⟩)]⟩).2.1
      "question_a.json" = true :=
  (C6_responder_never_deletes (fun _ => ["ok", ""]) 0
      [⟨"a", "what", none, "s", "m", 0⟩] []
      ⟨true, [("question_a.json",
        FileData.question ⟨"a", "what", none, "s", "m", 0⟩)]⟩ []
      (fun e he => absurd he (List.not_mem_nil e))).1
    "question_a.json" (by decide)

/-- C7 counterexample: with the directory listing failing, the Responder
iteration ends in process exit with code 1, not in a continuing loop. -/
theorem C7_counterexample :
    responderMainStep (fun _ => []) 0 false [] ⟨true, []⟩ = .exits 1 := rfl

/-- C7 (amended): a per-file read or parse failure only makes the Responder
skip that file — every discovered question comes from a file that parsed,
and an iteration whose listing succeeds never exits — but an I/O failure of
the directory listing itself is caught nowhere inside the loop: it reaches
the top-level catch handler, which logs it and exits the process with
code 1. -/
theorem C7_amended_io_failure (env : String → List String) (t : Nat)
    (seen : List String) (fs : Mailbox) (c : Nat) (q : Question) :
    responderMainStep env t false seen fs = .exits 1 ∧
    responderMainStep env t true seen fs ≠ .exits c ∧
    (q ∈ getPendingQuestions fs →
      ∃ n, readFileF fs n = some (.question q)) :=
  ⟨rfl, responderMainStep_listOk_no_exit env t seen fs c,
    getPendingQuestions_parses fs q⟩

/-- C7 witness: on a mailbox holding one corrupt and one parsable request
file, the failed-listing step exits, the successful-listing step does not,
and the discovered question indeed comes from the parsable file. -/
theorem C7_amended_io_failure_witness :
    responderMainStep (fun _ => ["ok", ""]) 0 false []
      ⟨true, [("question_a.json", FileData.corrupt),
        ("question_b.json",
          FileData.question ⟨"b", "w", none, "s", "m", 0⟩)]⟩ = .exits 1 ∧
    responderMainStep (fun _ => ["ok", ""]) 0 true []
      ⟨true, [("question_a.json", FileData.corrupt),
        ("question_b.json",
          FileData.question ⟨"b", "w", none, "s", "m", 0⟩)]⟩ ≠ .exits 1 ∧
    ∃ n, readFileF ⟨true, [("question_a.json", FileData.corrupt),
        ("question_b.json",
          FileData.question ⟨"b", "w", none, "s", "m", 0⟩)]⟩ n =
      some (.question ⟨"b", "w", none, "s", "m", 0⟩) := by
  have h := C7_amended_io_failure (fun _ => ["ok", ""]) 0 []
    ⟨true, [("question_a.json", FileData.corrupt),
      ("question_b.json", FileData.question ⟨"b", "w", none, "s", "m", 0⟩)]⟩
    1 ⟨"b", "w", none, "s", "m", 0⟩
  refine ⟨h.1, h.2.1, h.2.2 ?_⟩
  unfold getPendingQuestions
  rw [List.mem_filterMap]
  refine ⟨"question_b.json", ?_, by decide⟩
  unfold pendingNames
  rw [(List.perm_insertionSort _ _).mem_iff]
  decide

/-- C8: a reply file that exists but fails to parse is treated as not
ready: the tick deletes neither record, returns nothing, and the loop
continues, so the same reply file is read again on the next tick. -/
theorem C8_parse_failure_retry (fs : Mailbox) (id : String)
    (elapsedMs timeoutMs timeoutSec : Nat)
    (rest : List (Bool × Nat × Mailbox))
    (_he : existsSyncF fs (responseFileName id) = true)
    (hp : (readFileF fs (responseFileName id)).bind parseResponse = none)
    (ht : ¬ timeoutMs < elapsedMs) :
    requesterTick false elapsedMs timeoutMs timeoutSec id fs = (fs, none) ∧
    requesterRun id timeoutMs timeoutSec ((false, elapsedMs, fs) :: rest) =
      requesterRun id timeoutMs timeoutSec rest := by
  have h1 := requesterTick_notReady elapsedMs timeoutMs timeoutSec id fs ht hp
  refine ⟨h1, ?_⟩
  rw [requesterRun, h1]

/-- C8 witness: a partially written reply file is reread unchanged. -/
theorem C8_parse_failure_retry_witness :
    requesterTick false 0 5000 5 "x"
        ⟨true, [("response_x.json", FileData.corrupt)]⟩ =
      (⟨true, [("response_x.json", FileData.corrupt)]⟩, none) ∧
    requesterRun "x" 5000 5
        ((false, 0, ⟨true, [("response_x.json", FileData.corrupt)]⟩) :: []) =
      requesterRun "x" 5000 5 [] :=
  C8_parse_failure_retry ⟨true, [("response_x.json", FileData.corrupt)]⟩
    "x" 0 5000 5 [] (by decide) (by decide) (by decide)

/-- C9: each request id is presented at most once per Responder process
lifetime — across a whole run the presented ids are pairwise distinct and
disjoint from the initial seen set, so a seen id is skipped even if its
file still exists — and within a tick the requests are served strictly one
at a time, each reply written before the next question is considered, in
the order of the discovered question list, whose file names are sorted
lexicographically. -/
theorem C9_dedup_order (t : Nat)
    (ticks : List ((String → List String) × (Mailbox → Mailbox)))
    (seen : List String) (fs : Mailbox) (env : String → List String)
    (qs : List Question) :
    (∀ i ∈ presentedIds (responderRun t ticks seen fs).2.2, i ∉ seen) ∧
    (presentedIds (responderRun t ticks seen fs).2.2).Nodup ∧
    wellFormedTrace (serveLoop env t qs seen fs).2.2.1 = true ∧
    List.Sublist
      (presentedIds (serveLoop env t (getPendingQuestions fs) seen fs).2.2.1)
      ((getPendingQuestions fs).map Question.id) ∧
    (pendingNames fs).Sorted (· ≤ ·) := by
  obtain ⟨r1, r2, _⟩ := responderRun_presented t ticks seen fs
  refine ⟨r1, r2, serveLoop_trace_wf env t qs seen fs,
    serveLoop_order env t (getPendingQuestions fs) seen fs, ?_⟩
  unfold pendingNames
  exact List.sorted_insertionSort _ _

/-- C9 witness: a run over one tick discovering one fresh question presents
it, with a nodup trace and sorted discovery names. -/
theorem C9_dedup_order_witness :
    ("a" ∉ ([] : List String)) ∧
    (presentedIds (responderRun 0 [(fun _ => ["ok", ""], fun m => m)] []
        ⟨true, [("question_a.json",
          FileData.question ⟨"a", "w", none, "s", "m", 0⟩)]⟩).2.2).Nodup := by
  have h := C9_dedup_order 0 [(fun _ => ["ok", ""], fun m => m)] []
    ⟨true, [("question_a.json",
      FileData.question ⟨"a", "w", none, "s", "m", 0⟩)]⟩ (fun _ => []) []
  exact ⟨h.1 "a" (by decide), h.2.1⟩

/-- C10: the timeout outcome and the abort outcome delete only the request
record: every other file, in particular the reply record of the same id, is
left untouched in the mailbox. -/
theorem C10_only_question_deleted (fs : Mailbox) (id : String)
    (elapsedMs timeoutMs timeoutSec : Nat) :
    requesterTick true elapsedMs timeoutMs timeoutSec id fs =
      (removeF fs (questionFileName id), some abortOutcome) ∧
    (timeoutMs < elapsedMs →
      requesterTick false elapsedMs timeoutMs timeoutSec id fs =
        (removeF fs (questionFileName id),
          some (timeoutOutcome timeoutSec))) ∧
    (∀ m, m ≠ questionFileName id →
      readFileF (removeF fs (questionFileName id)) m = readFileF fs m) ∧
    readFileF (removeF fs (questionFileName id)) (responseFileName id) =
      readFileF fs (responseFileName id) := by
  refine ⟨requesterTick_abort elapsedMs timeoutMs timeoutSec id fs,
    fun h => requesterTick_timeout elapsedMs timeoutMs timeoutSec id fs h,
    ?_, ?_⟩
  · intro m hm
    rw [readFileF_removeF, if_neg hm]
  · rw [readFileF_removeF,
      if_neg (fun h => questionFileName_ne_responseFileName id h.symm)]

/-- C10 witness: a timed-out tick on a mailbox holding both records removes
the question file and leaves the reply file as it was. -/
theorem C10_only_question_deleted_witness :
    requesterTick false 6 5 1 "x"
        ⟨true, [("question_x.json",
            FileData.question ⟨"x", "w", none, "s", "m", 0⟩),
          ("response_x.json", FileData.response ⟨"x", "hi", true, 0⟩)]⟩ =
      (removeF ⟨true, [("question_x.json",
            FileData.question ⟨"x", "w", none, "s", "m", 0⟩),
          ("response_x.json", FileData.response ⟨"x", "hi", true, 0⟩)]⟩
        (questionFileName "x"), some (timeoutOutcome 1)) ∧
    readFileF (removeF ⟨true, [("question_x.json",
          FileData.question ⟨"x", "w", none, "s", "m", 0⟩),
        ("response_x.json", FileData.response ⟨"x", "hi", true, 0⟩)]⟩
      (questionFileName "x")) (responseFileName "x") =
      readFileF ⟨true, [("question_x.json",
          FileData.question ⟨"x", "w", none, "s", "m", 0⟩),
        ("response_x.json", FileData.response ⟨"x", "hi", true, 0⟩)]⟩
        (responseFileName "x") := by
  have h := C10_only_question_deleted ⟨true, [("question_x.json",
      FileData.question ⟨"x", "w", none, "s", "m", 0⟩),
    ("response_x.json", FileData.response ⟨"x", "hi", true, 0⟩)]⟩ "x" 6 5 1
  exact ⟨h.2.1 (by decide), h.2.2.2⟩

end AskUser
